import Mathlib

set_option linter.unreachableTactic false
set_option linter.unusedTactic false

/-!
Shallow embedding of the litestore predicate-to-SQL query compiler and
typed iteration engine (query builder in `query.go` / the validated
variant, streaming executor and single-result resolver in `store.go`).

Go `any` values that can appear as filter values or compiled query
arguments are modelled by the inductive `Value`; Go's `reflect`-based
slice inspection distinguishes a typed nil slice (`vNilSlice`) from a
non-nil slice/array (`vSlice`) and from every non-sequence value.
-/

namespace Litestore

/-- Model of Go `any` values used as filter values / query arguments. -/
inductive Value where
  | vNull
  | vStr (s : String)
  | vInt (n : Int)
  | vBool (b : Bool)
  | vSlice (elems : List Value)
  | vNilSlice

/-- Structured model of the `fmt.Errorf` failures of the query builder;
each constructor corresponds to one error site and carries exactly the
data interpolated into the Go format string. -/
inductive QErr where
  | requiresSlice (op : String)
  | nilValues (op : String)
  | invalidInKey (op : String) (key : String)
  | unsupportedOperator (op : String)
  | invalidFilterKey (key : String)
  | invalidOrderDirection (dir : String)
  | invalidOrderChar (key : String)
  | invalidOrderKey (key : String)
deriving Repr, DecidableEq

/-- The Go error message text each `QErr` renders to (`fmt.Errorf`). -/
def errMsg : QErr → String
  | .requiresSlice op => op ++ " operator requires a slice value"
  | .nilValues op => op ++ " predicate values cannot be nil"
  | .invalidInKey op key =>
      "invalid " ++ op ++ " key: '" ++ key ++ "' is not a valid key for this entity"
  | .unsupportedOperator op => "unsupported query operator: " ++ op
  | .invalidFilterKey key =>
      "invalid filter key: '" ++ key ++ "' is not a valid key for this entity"
  | .invalidOrderDirection dir => "invalid order direction: " ++ dir
  | .invalidOrderChar key => "invalid character in order by key: " ++ key
  | .invalidOrderKey key =>
      "invalid order by key: '" ++ key ++ "' is not a valid key for this entity"

def OpEq : String := "="
def OpNEq : String := "!="
def OpGT : String := ">"
def OpGTE : String := ">="
def OpLT : String := "<"
def OpLTE : String := "<="
def OpIn : String := "IN"
def OpNotIn : String := "NOT IN"

/-- The closed predicate variant set {Filter, And, Or}. -/
inductive Predicate where
  | filter (key : String) (op : String) (value : Value)
  | and (preds : List Predicate)
  | or (preds : List Predicate)

/-- Whether the character occurs in the string (Go `strings.Contains`
with a single-character needle, and the per-character test behind
`strings.ContainsAny`). -/
def containsChar (s : String) (c : Char) : Bool := s.toList.contains c

/-- Go's `strings.Join`: concatenates the pieces with the separator
between consecutive pieces. -/
def joinSep (sep : String) : List String → String
  | [] => ""
  | [c] => c
  | c :: c₁ :: rest => c ++ sep ++ joinSep sep (c₁ :: rest)

/-- `"?, ?, ?"` placeholder list for an IN/NOT IN clause. -/
def placeholdersFor (values : List Value) : String :=
  joinSep ", " (values.map (fun _ => "?"))

/-- Wraps each child clause in parentheses and joins with the joiner:
`"(c1) AND (c2) AND (c3)"`. -/
def wrapJoin (clauses : List String) (joiner : String) : String :=
  "(" ++ joinSep (") " ++ joiner ++ " (") clauses ++ ")"

mutual

/-- Embedding of `buildWhereClause`: recursively walks the predicate
tree producing (clause text, args, error); mirrors the Go triple return
`(string, []any, error)` so that error returns carry the literal
`"", nil` the source writes.  The `And`/`Or` cases inline the body of
`joinPredicates` (see `buildWhereClause_and` / `buildWhereClause_or`
below for the equations connecting them). -/
def buildWhereClause (p : Predicate) (validKeys : List String) (keyFieldName : String) :
    String × List Value × Option QErr :=
  match p with
  | .filter k op v =>
    if op = OpIn ∨ op = OpNotIn then
      match v with
      | .vSlice values =>
        if values.length = 0 then
          if op = OpIn then ("1 = 0", [], none) else ("1 = 1", [], none)
        else
          let inClause := placeholdersFor values
          if keyFieldName ≠ "" ∧ k = keyFieldName then
            ("key " ++ op ++ " (" ++ inClause ++ ")", values, none)
          else if ¬ containsChar k '.' ∧ k ∉ validKeys then
            ("", [], some (.invalidInKey op k))
          else
            ("json_extract(json, ?) " ++ op ++ " (" ++ inClause ++ ")",
             .vStr ("$." ++ k) :: values, none)
      | .vNilSlice => ("", [], some (.nilValues op))
      | _ => ("", [], some (.requiresSlice op))
    else if op = OpEq ∨ op = OpNEq ∨ op = OpGT ∨ op = OpGTE ∨ op = OpLT ∨ op = OpLTE then
      if keyFieldName ≠ "" ∧ k = keyFieldName then
        ("key " ++ op ++ " ?", [v], none)
      else if ¬ containsChar k '.' ∧ k ∉ validKeys then
        ("", [], some (.invalidFilterKey k))
      else
        ("json_extract(json, ?) " ++ op ++ " ?", [.vStr ("$." ++ k), v], none)
    else
      ("", [], some (.unsupportedOperator op))
  | .and preds =>
    match preds with
    | [] => ("", [], none)
    | _ :: _ =>
      match collectClauses preds validKeys keyFieldName with
      | .error e => ("", [], some e)
      | .ok (clauses, allArgs) => (wrapJoin clauses "AND", allArgs, none)
  | .or preds =>
    match preds with
    | [] => ("", [], none)
    | _ :: _ =>
      match collectClauses preds validKeys keyFieldName with
      | .error e => ("", [], some e)
      | .ok (clauses, allArgs) => (wrapJoin clauses "OR", allArgs, none)

/-- The accumulation loop inside `joinPredicates`: compiles each child in
order, aborting on the first failure, collecting clauses and concatenating
argument lists in child order. -/
def collectClauses (preds : List Predicate) (validKeys : List String) (keyFieldName : String) :
    Except QErr (List String × List Value) :=
  match preds with
  | [] => .ok ([], [])
  | p :: rest =>
    match buildWhereClause p validKeys keyFieldName with
    | (_, _, some e) => .error e
    | (clause, args, none) =>
      match collectClauses rest validKeys keyFieldName with
      | .error e => .error e
      | .ok (cs, moreArgs) => .ok (clause :: cs, args ++ moreArgs)

end

/-- Embedding of `joinPredicates`: empty child list is a no-op; otherwise
the children's clauses are wrapped in parentheses and joined. -/
def joinPredicates (preds : List Predicate) (joiner : String)
    (validKeys : List String) (keyFieldName : String) : String × List Value × Option QErr :=
  match preds with
  | [] => ("", [], none)
  | _ :: _ =>
    match collectClauses preds validKeys keyFieldName with
    | .error e => ("", [], some e)
    | .ok (clauses, allArgs) => (wrapJoin clauses joiner, allArgs, none)

theorem buildWhereClause_and (preds : List Predicate) (vk : List String) (kfn : String) :
    buildWhereClause (.and preds) vk kfn = joinPredicates preds "AND" vk kfn := by
  cases preds <;> rfl

theorem buildWhereClause_or (preds : List Predicate) (vk : List String) (kfn : String) :
    buildWhereClause (.or preds) vk kfn = joinPredicates preds "OR" vk kfn := by
  cases preds <;> rfl

example : buildWhereClause (.filter "bogus" "IN" (.vSlice [])) ["name"] "" =
    ("1 = 0", [], none) := rfl

example : buildWhereClause (.and [.and []]) ["x"] "" = ("()", [], none) := rfl

example :
    buildWhereClause (.and [.filter "name" "=" (.vStr "a"), .or []]) ["name"] "" =
      ("(json_extract(json, ?) = ?) AND ()", [.vStr "$.name", .vStr "a"], none) := by
  simp [buildWhereClause, collectClauses, wrapJoin, placeholdersFor, OpIn, OpNotIn, OpEq,
    joinSep]

def OrderAsc : String := "ASC"
def OrderDesc : String := "DESC"

/-- An order-by entry: field name and direction. -/
structure OrderBy where
  key : String
  direction : String
deriving Repr, DecidableEq

/-- A query descriptor: optional predicate, order-by entries, limit.
Go's `Limit int` is an `Int` (it may be zero or negative). -/
structure Query where
  predicate : Option Predicate
  orderBy : List OrderBy
  limit : Int

/-- The order-by loop of `Query.build`: for each entry, validates the
direction, special-cases the key field, rejects `;`/`)` characters,
validates top-level (separator-free) keys against the valid key set, and
emits `json_extract` clauses with the `"$."`-prefixed path as argument.
Errors abort, discarding everything accumulated (as the enclosing Go
`build` does by returning `"", nil, err`). -/
def buildOrderClauses (obs : List OrderBy) (validKeys : List String) (keyFieldName : String) :
    Except QErr (List String × List Value) :=
  match obs with
  | [] => .ok ([], [])
  | o :: rest =>
    if o.direction ≠ OrderAsc ∧ o.direction ≠ OrderDesc then
      .error (.invalidOrderDirection o.direction)
    else if keyFieldName ≠ "" ∧ o.key = keyFieldName then
      match buildOrderClauses rest validKeys keyFieldName with
      | .error e => .error e
      | .ok (cs, args) => .ok (("key " ++ o.direction) :: cs, args)
    else if containsChar o.key ';' ∨ containsChar o.key ')' then
      .error (.invalidOrderChar o.key)
    else if ¬ containsChar o.key '.' ∧ o.key ∉ validKeys then
      .error (.invalidOrderKey o.key)
    else
      match buildOrderClauses rest validKeys keyFieldName with
      | .error e => .error e
      | .ok (cs, args) =>
        .ok (("json_extract(json, ?) " ++ o.direction) :: cs,
             Value.vStr ("$." ++ o.key) :: args)

/-- The SELECT/WHERE/ORDER BY portion of `Query.build` (everything the Go
function emits before the `LIMIT` step); `Query.build` below adds the
`LIMIT ?` clause on top.  Mirrors the Go triple return: every validation
failure returns `("", [], some e)`. -/
def Query.buildPrefix (q : Query) (tableName : String) (validKeys : List String)
    (keyFieldName : String) : String × List Value × Option QErr :=
  let base := "SELECT key, json FROM " ++ tableName
  let afterWhere : String × List Value × Option QErr :=
    match q.predicate with
    | none => (base, [], none)
    | some p =>
      match buildWhereClause p validKeys keyFieldName with
      | (_, _, some e) => ("", [], some e)
      | (wc, wargs, none) =>
        if wc = "" then (base, [], none)
        else (base ++ " WHERE " ++ wc, wargs, none)
  match afterWhere with
  | (_, _, some e) => ("", [], some e)
  | (t₁, a₁, none) =>
    if q.orderBy.isEmpty then (t₁, a₁, none)
    else
      match buildOrderClauses q.orderBy validKeys keyFieldName with
      | .error e => ("", [], some e)
      | .ok (clauses, oargs) =>
        (t₁ ++ " ORDER BY " ++ joinSep ", " clauses, a₁ ++ oargs, none)

/-- Embedding of `Query.build`: emits the base SELECT, appends the WHERE
clause when the predicate compiles to non-empty text, then the ORDER BY
clauses, then `LIMIT ?` with the limit as final argument when the limit
is positive. -/
def Query.build (q : Query) (tableName : String) (validKeys : List String)
    (keyFieldName : String) : String × List Value × Option QErr :=
  match q.buildPrefix tableName validKeys keyFieldName with
  | (_, _, some e) => ("", [], some e)
  | (t₂, a₂, none) =>
    if q.limit > 0 then (t₂ ++ " LIMIT ?", a₂ ++ [Value.vInt q.limit], none)
    else (t₂, a₂, none)

/-! ### Streaming executor (`Store.Iter`) and single-result resolver (`Store.GetOne`)

A result row is a `(key, json)` pair of strings.  The external pieces —
the SQL engine, `rows.Scan`, `json.Unmarshal` and the reflective key
back-fill — are abstracted as parameters: `decode` covers scan+unmarshal
of the json column (both failure points abort the stream identically in
the source), `backfill` covers the key-field population, `cancelled n`
is whether `ctx.Err()` is non-nil at the n-th loop iteration (Go
contexts are monotone: once cancelled, always cancelled), and `rowsErr`
is the terminal `rows.Err()` value observed at exhaustion. -/

/-- A database row: (key, json). -/
abbrev Row := String × String

/-- Terminal / per-item stream errors of the `Iter` sequence. -/
inductive StreamErr where
  | cancelled
  | decodeFailed (msg : String)
  | rowIterationFailed (msg : String)
deriving Repr, DecidableEq

/-- Observable events of one consumption of the `Iter` sequence:
yielded items and the (deferred) closing of the row cursor. -/
inductive IterEvent (T : Type) where
  | yielded (x : Except StreamErr T)
  | closed

/-- Embedding of the `seq` closure in `Store.Iter`: for each fetched row,
first check cancellation (yield the cancellation error and stop), then
scan/decode (yield the decode error and stop), then yield the decoded
entity with its key backfilled; at exhaustion surface `rows.Err()` if
any.  The `defer rows.Close()` of the source is the `.closed` event
emitted on every exit path.  The consumer is modelled as consuming the
whole sequence (never breaking early). -/
def iterTrace {T : Type} (decode : String → Except String T) (backfill : String → T → T)
    (cancelled : Nat → Bool) (rowsErr : Option String) :
    List Row → Nat → List (IterEvent T)
  | [], _ =>
    match rowsErr with
    | some m => [.yielded (.error (.rowIterationFailed m)), .closed]
    | none => [.closed]
  | r :: rest, n =>
    if cancelled n then [.yielded (.error .cancelled), .closed]
    else
      match decode r.2 with
      | .error m => [.yielded (.error (.decodeFailed m)), .closed]
      | .ok t => .yielded (.ok (backfill r.1 t)) :: iterTrace decode backfill cancelled rowsErr rest (n + 1)

/-- The items yielded by the `Iter` loop (the stream as the consumer
sees it): the same loop as `iterTrace`, projected onto its yields; see
`iterTrace_eq_outputs` for the relation between the two. -/
def iterOutputs {T : Type} (decode : String → Except String T) (backfill : String → T → T)
    (cancelled : Nat → Bool) (rowsErr : Option String) :
    List Row → Nat → List (Except StreamErr T)
  | [], _ =>
    match rowsErr with
    | some m => [.error (.rowIterationFailed m)]
    | none => []
  | r :: rest, n =>
    if cancelled n then [.error .cancelled]
    else
      match decode r.2 with
      | .error m => [.error (.decodeFailed m)]
      | .ok t => .ok (backfill r.1 t) :: iterOutputs decode backfill cancelled rowsErr rest (n + 1)

/-- Modelled from the spec: the storage engine (SQLite, not part of the
core source) runs the compiled query and returns the rows matching the
predicate in engine order, truncated to the query's limit when the limit
is positive (SQL `LIMIT` semantics); `matching` stands for the rows the
predicate matches. -/
def runQuery (matching : List Row) (q : Query) : List Row :=
  if q.limit > 0 then matching.take q.limit.toNat else matching

/-- Embedding of `Store.Iter` composed with the modelled engine: a nil
query is replaced by the empty query; a build failure returns the error
without touching the engine; otherwise the engine's rows are streamed. -/
def IterM {T : Type} (qOpt : Option Query) (tableName : String) (validKeys : List String)
    (keyFieldName : String) (engine : String → List Value → List Row)
    (decode : String → Except String T) (backfill : String → T → T)
    (cancelled : Nat → Bool) (rowsErr : Option String) :
    Except QErr (List (IterEvent T)) :=
  let q := qOpt.getD ⟨none, [], 0⟩
  match Query.build q tableName validKeys keyFieldName with
  | (_, _, some e) => .error e
  | (t, args, none) =>
    .ok (iterTrace decode backfill cancelled rowsErr (engine t args) 0)

/-- Errors `Store.GetOne` can return. -/
inductive GetOneErr where
  | buildFailed (e : QErr)
  | iterationFailed (e : StreamErr)
  | notFound
  | multipleResults
deriving Repr, DecidableEq

/-- The consumption loop of `GetOne` over the yielded stream: remembers
the first entity, counts items, breaks on the first per-item error or as
soon as a second item is observed.  Returns
(result, iterErr, count, items consumed). -/
def getOneLoop {T : Type} (seq : List (Except StreamErr T)) (result : T) (cnt : Nat) :
    T × Option StreamErr × Nat × Nat :=
  match seq with
  | [] => (result, none, cnt, 0)
  | x :: rest =>
    match x with
    | .error e => (result, some e, cnt, 1)
    | .ok t =>
      let result₁ := if cnt = 0 then t else result
      let cnt₁ := cnt + 1
      if cnt₁ > 1 then (result₁, none, cnt₁, 1)
      else
        match getOneLoop rest result₁ cnt₁ with
        | (r, ie, c, consumed) => (r, ie, c, consumed + 1)

/-- Embedding of `Store.GetOne`: builds a query with the given predicate
and a limit of 2, consumes the same `Iter` sequence as any other caller
(including its cancellation checks and terminal `rows.Err()`), and
disambiguates 0 / 1 / many results; any per-item error breaks the loop
before the count is examined and is returned wrapped as an iteration
failure.  Also returns how many stream items were consumed. -/
def GetOneM {T : Type} (p : Predicate) (tableName : String) (validKeys : List String)
    (keyFieldName : String) (zero : T) (matching : List Row)
    (decode : String → Except String T) (backfill : String → T → T)
    (cancelled : Nat → Bool) (rowsErr : Option String) :
    Except GetOneErr T × Nat :=
  let q : Query := ⟨some p, [], 2⟩
  match Query.build q tableName validKeys keyFieldName with
  | (_, _, some e) => (.error (.buildFailed e), 0)
  | (_, _, none) =>
    let rows := runQuery matching q
    let stream := iterOutputs decode backfill cancelled rowsErr rows 0
    match getOneLoop stream zero 0 with
    | (result, iterErr, cnt, consumed) =>
      match iterErr with
      | some e => (.error (.iterationFailed e), consumed)
      | none =>
        if cnt = 0 then (.error .notFound, consumed)
        else if cnt > 1 then (.error .multipleResults, consumed)
        else (.ok result, consumed)

/-- Number of positional `?` placeholders in a piece of query text. -/
def countQ (s : String) : Nat := s.toList.countP (· = '?')

mutual

/-- All filter leaves of a predicate tree, depth-first left-to-right,
as (key, operator, value) triples. -/
def filtersOf : Predicate → List (String × String × Value)
  | .filter k op v => [(k, op, v)]
  | .and preds => filtersOfList preds
  | .or preds => filtersOfList preds

/-- Filter leaves of a child list, in child order. -/
def filtersOfList : List Predicate → List (String × String × Value)
  | [] => []
  | p :: rest => filtersOf p ++ filtersOfList rest

end

/-- Whether a value is a non-nil empty sequence. -/
def isEmptySeq : Value → Bool
  | .vSlice vs => vs.length = 0
  | _ => false

/-- The order-by arguments the spec prescribes: the `"$."`-prefixed field
path of each entry in entry order, omitting entries that name the key
field (those order by the physical key column without an argument). -/
def orderArgsSpec (obs : List OrderBy) (keyFieldName : String) : List Value :=
  obs.filterMap fun o =>
    if keyFieldName ≠ "" ∧ o.key = keyFieldName then none
    else some (.vStr ("$." ++ o.key))

section CountLemmas

theorem countQ_append (a b : String) : countQ (a ++ b) = countQ a + countQ b := by
  simp [countQ, String.toList, String.data_append, List.countP_append]

theorem countQ_joinSep (sep : String) (h : countQ sep = 0) (cs : List String) :
    countQ (joinSep sep cs) = (cs.map countQ).sum := by
  induction cs with
  | nil => simp [joinSep, countQ]
  | cons c rest ih =>
    cases rest with
    | nil => simp [joinSep]
    | cons c₁ r =>
      rw [joinSep, countQ_append, countQ_append, h, ih]
      simp [Nat.add_assoc]

theorem countQ_qmark : countQ "?" = 1 := rfl

theorem countQ_lit_key : countQ "key " = 0 := rfl

theorem countQ_lit_json : countQ "json_extract(json, ?) " = 1 := rfl

theorem countQ_lit_lparen : countQ " (" = 0 := rfl

theorem countQ_lit_rparen : countQ ")" = 0 := rfl

theorem countQ_lit_qm : countQ " ?" = 1 := rfl

theorem countQ_placeholdersFor (values : List Value) :
    countQ (placeholdersFor values) = values.length := by
  rw [placeholdersFor, countQ_joinSep _ (by rfl)]
  induction values with
  | nil => simp
  | cons v rest ih => simp [countQ_qmark] at ih ⊢; omega

theorem countQ_wrapJoin (cs : List String) (joiner : String) (h : countQ joiner = 0) :
    countQ (wrapJoin cs joiner) = (cs.map countQ).sum := by
  have h₁ : countQ "(" = 0 := rfl
  have h₂ : countQ ")" = 0 := rfl
  have h₃ : countQ ") " = 0 := rfl
  have h₄ : countQ " (" = 0 := rfl
  rw [wrapJoin, countQ_append, countQ_append, countQ_joinSep, h₁, h₂]
  · omega
  · rw [countQ_append, countQ_append, h, h₃, h₄]

end CountLemmas

/-- C5: for IN with a non-nil empty sequence the compiled text is the
always-false literal `1 = 0` with zero arguments; for NOT IN it is the
always-true literal `1 = 1`; a nil slice fails with the "values cannot
be nil" error and every non-sequence value (string, int, bool, nil
interface) fails with the "requires a slice value" error. -/
theorem c5_in_empty_and_invalid_values (k : String) (vk : List String) (kfn : String) :
    buildWhereClause (.filter k OpIn (.vSlice [])) vk kfn = ("1 = 0", [], none) ∧
    buildWhereClause (.filter k OpNotIn (.vSlice [])) vk kfn = ("1 = 1", [], none) ∧
    (∀ op, op = OpIn ∨ op = OpNotIn →
      buildWhereClause (.filter k op .vNilSlice) vk kfn =
        ("", [], some (.nilValues op)) ∧
      (∀ s, buildWhereClause (.filter k op (.vStr s)) vk kfn =
        ("", [], some (.requiresSlice op))) ∧
      (∀ n : Int, buildWhereClause (.filter k op (.vInt n)) vk kfn =
        ("", [], some (.requiresSlice op))) ∧
      (∀ b, buildWhereClause (.filter k op (.vBool b)) vk kfn =
        ("", [], some (.requiresSlice op))) ∧
      buildWhereClause (.filter k op .vNull) vk kfn =
        ("", [], some (.requiresSlice op))) := by
  refine ⟨?_, ?_, ?_⟩
  · simp [buildWhereClause, OpIn, OpNotIn]
  · simp [buildWhereClause, OpIn, OpNotIn]
  · rintro op (rfl | rfl) <;>
      exact ⟨by simp [buildWhereClause, OpIn, OpNotIn],
             fun s => by simp [buildWhereClause, OpIn, OpNotIn],
             fun n => by simp [buildWhereClause, OpIn, OpNotIn],
             fun b => by simp [buildWhereClause, OpIn, OpNotIn],
             by simp [buildWhereClause, OpIn, OpNotIn]⟩

/-- Witness for `c5_in_empty_and_invalid_values` at a concrete input. -/
theorem c5_witness :
    buildWhereClause (.filter "age" OpIn .vNilSlice) ["age"] "" =
      ("", [], some (.nilValues OpIn)) :=
  ((c5_in_empty_and_invalid_values "age" ["age"] "").2.2 OpIn (Or.inl rfl)).1

/-- C7: a filter on the key field compiles against the physical key
column (`key <op> ?` with only the value as argument; `key IN (?, ...)`
with exactly the values for list operators) with no JSON extraction and
no field-path argument, and an order-by entry on the key field compiles
to ordering by the key column with no argument. -/
theorem c7_key_field_fast_path (kfn : String) (hk : kfn ≠ "") (vk : List String) :
    (∀ op v, op = OpEq ∨ op = OpNEq ∨ op = OpGT ∨ op = OpGTE ∨ op = OpLT ∨ op = OpLTE →
      buildWhereClause (.filter kfn op v) vk kfn = ("key " ++ op ++ " ?", [v], none)) ∧
    (∀ op values, op = OpIn ∨ op = OpNotIn → values ≠ [] →
      buildWhereClause (.filter kfn op (.vSlice values)) vk kfn =
        ("key " ++ op ++ " (" ++ placeholdersFor values ++ ")", values, none)) ∧
    (∀ d, d = OrderAsc ∨ d = OrderDesc →
      buildOrderClauses [⟨kfn, d⟩] vk kfn = .ok (["key " ++ d], [])) := by
  refine ⟨?_, ?_, ?_⟩
  · rintro op v (rfl | rfl | rfl | rfl | rfl | rfl) <;>
      simp [buildWhereClause, OpIn, OpNotIn, OpEq, OpNEq, OpGT, OpGTE, OpLT, OpLTE, hk]
  · rintro op values (rfl | rfl) hne <;>
      simp [buildWhereClause, OpIn, OpNotIn, hk, List.length_eq_zero, hne]
  · rintro d (rfl | rfl) <;>
      simp [buildOrderClauses, OrderAsc, OrderDesc, hk]

/-- Witness for `c7_key_field_fast_path` at a concrete input. -/
theorem c7_witness :
    buildWhereClause (.filter "id" OpEq (.vStr "x")) ["name"] "id" =
      ("key " ++ OpEq ++ " ?", [.vStr "x"], none) :=
  (c7_key_field_fast_path "id" (by decide) ["name"]).1 OpEq (.vStr "x") (Or.inl rfl)

/-- C10: changing only the limit of a query that builds successfully
with limit 0 keeps the same text and arguments when the new limit is
zero or negative (no LIMIT clause, no limit argument, no error), and
appends exactly `" LIMIT ?"` and the limit as final argument when the
new limit is positive. -/
theorem c10_limit_clause_iff_positive (q : Query) (tn : String) (vk : List String)
    (kfn : String) (t₀ : String) (a₀ : List Value)
    (h : Query.build { q with limit := 0 } tn vk kfn = (t₀, a₀, none)) (l : Int) :
    Query.build { q with limit := l } tn vk kfn =
      (if l > 0 then (t₀ ++ " LIMIT ?", a₀ ++ [Value.vInt l], none) else (t₀, a₀, none)) := by
  have hpre : Query.buildPrefix { q with limit := l } tn vk kfn =
      Query.buildPrefix { q with limit := 0 } tn vk kfn := by
    cases q; rfl
  rw [Query.build] at h
  rw [Query.build, hpre]
  rcases hp : Query.buildPrefix { q with limit := 0 } tn vk kfn with ⟨t₂, a₂, e₂⟩
  rw [hp] at h
  cases e₂ with
  | some e => simp at h
  | none =>
    simp only [show ¬ ((0 : Int) > 0) by decide, if_false] at h
    obtain ⟨rfl, rfl⟩ : t₂ = t₀ ∧ a₂ = a₀ := by
      simpa using h
    simp

/-- Witness for `c10_limit_clause_iff_positive` at a concrete input. -/
theorem c10_witness :
    Query.build { predicate := none, orderBy := [], limit := (-3 : Int) } "t" [] "" =
      (if (-3 : Int) > 0 then
        ("SELECT key, json FROM t" ++ " LIMIT ?", [] ++ [Value.vInt (-3)], none)
       else ("SELECT key, json FROM t", [], none)) :=
  c10_limit_clause_iff_positive ⟨none, [], 7⟩ "t" [] "" "SELECT key, json FROM t" [] rfl (-3)

/-- C2 counterexample: nesting an empty combinator inside another
combinator does introduce stray parentheses: `And [Or []]` compiles to
the text `"()"`, and `And [filter, Or []]` compiles to text ending in
`" AND ()"`, refuting the no-stray-parentheses half of the claim. -/
theorem c2_counterexample :
    buildWhereClause (.and [.or []]) ["name"] "" = ("()", [], none) ∧
    buildWhereClause (.and [.filter "name" "=" (.vStr "a"), .or []]) ["name"] "" =
      ("(json_extract(json, ?) = ?) AND ()", [.vStr "$.name", .vStr "a"], none) := by
  constructor
  · rfl
  · simp [buildWhereClause, collectClauses, wrapJoin, placeholdersFor, OpIn, OpNotIn, OpEq,
      joinSep]

/-- C2 as amended: an `And`/`Or` with an empty children list compiles to
empty text and empty args, but such an empty combinator nested as a
child of another combinator contributes an empty clause that appears as
a stray `()` group joined like any other child. -/
theorem c2_empty_combinator (vk : List String) (kfn : String) :
    (∀ joiner, joinPredicates [] joiner vk kfn = ("", [], none)) ∧
    buildWhereClause (.and []) vk kfn = ("", [], none) ∧
    buildWhereClause (.or []) vk kfn = ("", [], none) ∧
    (∀ joiner c t a, buildWhereClause c vk kfn = (t, a, none) →
      joinPredicates [c, .and []] joiner vk kfn =
        ("(" ++ t ++ ") " ++ joiner ++ " ()", a, none)) ∧
    (∀ joiner, joinPredicates [Predicate.and []] joiner vk kfn = ("()", [], none)) := by
  refine ⟨fun joiner => rfl, rfl, rfl, ?_, fun joiner => rfl⟩
  intro joiner c t a h
  simp only [joinPredicates, collectClauses, h, buildWhereClause, wrapJoin, joinSep]
  have h₂ : (" (" : String) ++ ")" = " ()" := rfl
  simp [String.append_assoc, String.append_empty, h₂]

/-- Witness for `c2_empty_combinator` at a concrete input. -/
theorem c2_witness :
    joinPredicates [.filter "k" "=" .vNull, .and []] "OR" ["k"] "" =
      ("(" ++ "json_extract(json, ?) = ?" ++ ") " ++ "OR" ++ " ()",
       [.vStr "$.k", .vNull], none) :=
  (c2_empty_combinator ["k"] "").2.2.2.1 "OR" (.filter "k" "=" .vNull)
    "json_extract(json, ?) = ?" [.vStr "$.k", .vNull]
    (by simp [buildWhereClause, OpIn, OpNotIn, OpEq])

/-- C8 counterexample: an order-by key containing a path separator is
not always accepted — the `;`/`)` character check still applies, so the
nested path `"a.b)"` fails compilation with an invalid-character error
even though the membership check is skipped. -/
theorem c8_counterexample :
    Query.build ⟨none, [⟨"a.b)", "ASC"⟩], 0⟩ "t" [] "" =
      ("", [], some (.invalidOrderChar "a.b)")) ∧
    containsChar "a.b)" '.' = true := ⟨rfl, rfl⟩

/-- C8 as amended: a field reference containing a path separator skips
the valid-field-set membership check — filters on such fields compile to
a `json_extract` over the nested path for every valid field set
(including the empty one), and order-by entries likewise, except that
order-by keys must additionally be free of the `;` and `)` characters
(that character validation is not skipped). -/
theorem c8_nested_path_skips_membership :
    (∀ k op v (vk : List String) kfn, containsChar k '.' = true →
      ¬ (kfn ≠ "" ∧ k = kfn) →
      op = OpEq ∨ op = OpNEq ∨ op = OpGT ∨ op = OpGTE ∨ op = OpLT ∨ op = OpLTE →
      buildWhereClause (.filter k op v) vk kfn =
        ("json_extract(json, ?) " ++ op ++ " ?", [.vStr ("$." ++ k), v], none)) ∧
    (∀ k op values (vk : List String) kfn, containsChar k '.' = true →
      ¬ (kfn ≠ "" ∧ k = kfn) → (op = OpIn ∨ op = OpNotIn) → values ≠ [] →
      buildWhereClause (.filter k op (.vSlice values)) vk kfn =
        ("json_extract(json, ?) " ++ op ++ " (" ++ placeholdersFor values ++ ")",
         .vStr ("$." ++ k) :: values, none)) ∧
    (∀ k d rest (vk : List String) kfn, containsChar k '.' = true →
      ¬ (kfn ≠ "" ∧ k = kfn) → containsChar k ';' = false → containsChar k ')' = false →
      (d = OrderAsc ∨ d = OrderDesc) →
      buildOrderClauses (⟨k, d⟩ :: rest) vk kfn =
        (buildOrderClauses rest vk kfn).map
          (fun r => (("json_extract(json, ?) " ++ d) :: r.1,
                     Value.vStr ("$." ++ k) :: r.2))) := by
  refine ⟨?_, ?_, ?_⟩
  · rintro k op v vk kfn hdot hnk (rfl | rfl | rfl | rfl | rfl | rfl) <;>
      simp [buildWhereClause, OpIn, OpNotIn, OpEq, OpNEq, OpGT, OpGTE, OpLT, OpLTE,
        hnk, hdot]
  · rintro k op values vk kfn hdot hnk (rfl | rfl) hne <;>
      simp [buildWhereClause, OpIn, OpNotIn, hnk, hdot, List.length_eq_zero, hne]
  · rintro k d rest vk kfn hdot hnk hsemi hparen (rfl | rfl) <;>
      · simp only [buildOrderClauses, OrderAsc, OrderDesc, hnk, hdot, hsemi, hparen]
        rcases buildOrderClauses rest vk kfn with e | ⟨cs, ags⟩ <;> simp [Except.map]

/-- Witness for `c8_nested_path_skips_membership` at a concrete input
(note the empty valid field set: no prefix of `"user.name"` is a known
field, yet compilation succeeds). -/
theorem c8_witness :
    buildWhereClause (.filter "user.name" OpEq (.vStr "bob")) [] "" =
      ("json_extract(json, ?) " ++ OpEq ++ " ?",
       [.vStr ("$." ++ "user.name"), .vStr "bob"], none) :=
  c8_nested_path_skips_membership.1 "user.name" OpEq (.vStr "bob") [] ""
    rfl (by simp) (Or.inl rfl)

section TreeInduction

/-- Each child of a successfully collected child list itself compiled
successfully. -/
theorem collectClauses_ok_mem (ps : List Predicate) (vk : List String) (kfn : String)
    (cs : List String) (ags : List Value)
    (h : collectClauses ps vk kfn = .ok (cs, ags)) :
    ∀ p ∈ ps, ∃ c a, buildWhereClause p vk kfn = (c, a, none) := by
  induction ps generalizing cs ags with
  | nil => intro p hp; simp at hp
  | cons p₀ rest ih =>
    intro p hp
    rw [collectClauses] at h
    rcases hb : buildWhereClause p₀ vk kfn with ⟨c₀, a₀, e₀⟩
    rw [hb] at h
    cases e₀ with
    | some e => simp at h
    | none =>
      simp only at h
      rcases hr : collectClauses rest vk kfn with e | ⟨cs₁, ags₁⟩
      · rw [hr] at h; simp at h
      · rw [hr] at h
        rcases List.mem_cons.mp hp with rfl | hp₁
        · exact ⟨c₀, a₀, hb⟩
        · exact ih cs₁ ags₁ hr p hp₁

/-- A filter leaf of a child list comes from one of the children. -/
theorem mem_filtersOfList (f : String × String × Value) (ps : List Predicate)
    (h : f ∈ filtersOfList ps) : ∃ p ∈ ps, f ∈ filtersOf p := by
  induction ps with
  | nil => simp [filtersOfList] at h
  | cons p₀ rest ih =>
    rw [filtersOfList] at h
    rcases List.mem_append.mp h with h₁ | h₂
    · exact ⟨p₀, List.mem_cons_self _ _, h₁⟩
    · rcases ih h₂ with ⟨p, hp, hf⟩
      exact ⟨p, List.mem_cons_of_mem _ hp, hf⟩

/-- Field validity over a whole successfully compiled predicate tree,
proved by strong induction on the tree size: every filter leaf whose key
has no path separator either names the key field, or is in the valid
field set, or is an IN/NOT IN filter over a non-nil empty sequence (the
one case the compiler short-circuits before validating). -/
theorem fieldValid_aux : ∀ (n : Nat) (p : Predicate), sizeOf p ≤ n →
    ∀ (vk : List String) (kfn : String) (t : String) (a : List Value),
      buildWhereClause p vk kfn = (t, a, none) →
      ∀ f ∈ filtersOf p, containsChar f.1 '.' = false →
        (kfn ≠ "" ∧ f.1 = kfn) ∨ f.1 ∈ vk ∨
          ((f.2.1 = OpIn ∨ f.2.1 = OpNotIn) ∧ isEmptySeq f.2.2 = true) := by
  intro n
  induction n with
  | zero =>
    intro p hp
    exfalso
    cases p <;> simp_arith at hp
  | succ n ih =>
    intro p hp vk kfn t a hb f hf hdot
    cases p with
    | filter k op v =>
      simp only [filtersOf, List.mem_singleton] at hf
      subst hf
      simp only [buildWhereClause] at hb
      by_cases h₁ : op = OpIn ∨ op = OpNotIn
      · rw [if_pos h₁] at hb
        cases v with
        | vSlice values =>
          by_cases h₂ : values.length = 0
          · exact Or.inr (Or.inr ⟨h₁, by simp [isEmptySeq, h₂]⟩)
          · simp only [if_neg h₂] at hb
            by_cases h₃ : kfn ≠ "" ∧ k = kfn
            · exact Or.inl h₃
            · simp only [if_neg h₃] at hb
              by_cases h₄ : ¬ (containsChar k '.' : Bool) ∧ k ∉ vk
              · rw [if_pos h₄] at hb; simp at hb
              · refine Or.inr (Or.inl ?_)
                rcases not_and_or.mp h₄ with h₅ | h₅
                · exact absurd (by simp [hdot]) h₅
                · exact not_not.mp h₅
        | vNilSlice => simp at hb
        | vNull => simp at hb
        | vStr s => simp at hb
        | vInt i => simp at hb
        | vBool b => simp at hb
      · rw [if_neg h₁] at hb
        by_cases h₆ : op = OpEq ∨ op = OpNEq ∨ op = OpGT ∨ op = OpGTE ∨ op = OpLT ∨ op = OpLTE
        · rw [if_pos h₆] at hb
          by_cases h₃ : kfn ≠ "" ∧ k = kfn
          · exact Or.inl h₃
          · simp only [if_neg h₃] at hb
            by_cases h₄ : ¬ (containsChar k '.' : Bool) ∧ k ∉ vk
            · rw [if_pos h₄] at hb; simp at hb
            · refine Or.inr (Or.inl ?_)
              rcases not_and_or.mp h₄ with h₅ | h₅
              · exact absurd (by simp [hdot]) h₅
              · exact not_not.mp h₅
        · rw [if_neg h₆] at hb; simp at hb
    | and ps =>
      cases ps with
      | nil => simp [filtersOf, filtersOfList] at hf
      | cons p₀ rest =>
        simp only [buildWhereClause] at hb
        rcases hc : collectClauses (p₀ :: rest) vk kfn with e | ⟨cs, ags⟩
        · rw [hc] at hb; simp at hb
        · simp only [filtersOf] at hf
          rcases mem_filtersOfList f _ hf with ⟨p₁, hp₁, hf₁⟩
          rcases collectClauses_ok_mem _ vk kfn cs ags hc p₁ hp₁ with ⟨c₁, a₁, hb₁⟩
          have hs₁ : sizeOf p₁ < sizeOf (p₀ :: rest) := List.sizeOf_lt_of_mem hp₁
          have hs₂ : sizeOf (Predicate.and (p₀ :: rest)) = 1 + sizeOf (p₀ :: rest) := by
            simp
          exact ih p₁ (by omega) vk kfn c₁ a₁ hb₁ f hf₁ hdot
    | or ps =>
      cases ps with
      | nil => simp [filtersOf, filtersOfList] at hf
      | cons p₀ rest =>
        simp only [buildWhereClause] at hb
        rcases hc : collectClauses (p₀ :: rest) vk kfn with e | ⟨cs, ags⟩
        · rw [hc] at hb; simp at hb
        · simp only [filtersOf] at hf
          rcases mem_filtersOfList f _ hf with ⟨p₁, hp₁, hf₁⟩
          rcases collectClauses_ok_mem _ vk kfn cs ags hc p₁ hp₁ with ⟨c₁, a₁, hb₁⟩
          have hs₁ : sizeOf p₁ < sizeOf (p₀ :: rest) := List.sizeOf_lt_of_mem hp₁
          have hs₂ : sizeOf (Predicate.or (p₀ :: rest)) = 1 + sizeOf (p₀ :: rest) := by
            simp
          exact ih p₁ (by omega) vk kfn c₁ a₁ hb₁ f hf₁ hdot

end TreeInduction

/-- C1 counterexample: a filter whose field `"bogus"` has no path
separator, does not name a key field (none is configured), and is not in
the valid field set `{"name"}` nevertheless compiles successfully when
its operator is IN with an empty value list — the empty-sequence
short-circuit fires before field validation. -/
theorem c1_counterexample :
    buildWhereClause (.filter "bogus" OpIn (.vSlice [])) ["name"] "" =
      ("1 = 0", [], none) ∧
    containsChar "bogus" '.' = false ∧
    ("bogus" ∉ (["name"] : List String)) := ⟨rfl, rfl, by decide⟩

/-- C1 as amended: in a successfully compiled predicate, every filter
field without a path separator names the key field, or belongs to the
valid field set, or is an IN/NOT IN filter with a non-nil empty value
list (which short-circuits before validation); and a filter whose
separator-free field is neither the key field nor valid fails with an
InvalidField-style error naming exactly that field (`invalid filter
key: '<field>' ...` for comparison operators, `invalid <op> key:
'<field>' ...` for IN/NOT IN with a non-empty list). -/
theorem c1_field_validation :
    (∀ (p : Predicate) (vk : List String) (kfn : String) (t : String) (a : List Value),
      buildWhereClause p vk kfn = (t, a, none) →
      ∀ f ∈ filtersOf p, containsChar f.1 '.' = false →
        (kfn ≠ "" ∧ f.1 = kfn) ∨ f.1 ∈ vk ∨
          ((f.2.1 = OpIn ∨ f.2.1 = OpNotIn) ∧ isEmptySeq f.2.2 = true)) ∧
    (∀ k op v (vk : List String) kfn,
      op = OpEq ∨ op = OpNEq ∨ op = OpGT ∨ op = OpGTE ∨ op = OpLT ∨ op = OpLTE →
      containsChar k '.' = false → ¬ (kfn ≠ "" ∧ k = kfn) → k ∉ vk →
      buildWhereClause (.filter k op v) vk kfn =
        ("", [], some (.invalidFilterKey k)) ∧
      errMsg (.invalidFilterKey k) =
        "invalid filter key: '" ++ k ++ "' is not a valid key for this entity") ∧
    (∀ k op values (vk : List String) kfn, op = OpIn ∨ op = OpNotIn → values ≠ [] →
      containsChar k '.' = false → ¬ (kfn ≠ "" ∧ k = kfn) → k ∉ vk →
      buildWhereClause (.filter k op (.vSlice values)) vk kfn =
        ("", [], some (.invalidInKey op k)) ∧
      errMsg (.invalidInKey op k) =
        "invalid " ++ op ++ " key: '" ++ k ++ "' is not a valid key for this entity") := by
  refine ⟨?_, ?_, ?_⟩
  · intro p vk kfn t a hb
    exact fieldValid_aux (sizeOf p) p le_rfl vk kfn t a hb
  · rintro k op v vk kfn (rfl | rfl | rfl | rfl | rfl | rfl) hdot hnk hnv <;>
      exact ⟨by simp [buildWhereClause, OpIn, OpNotIn, OpEq, OpNEq, OpGT, OpGTE, OpLT,
        OpLTE, hnk, hdot, hnv], rfl⟩
  · rintro k op values vk kfn (rfl | rfl) hne hdot hnk hnv <;>
      exact ⟨by simp [buildWhereClause, OpIn, OpNotIn, List.length_eq_zero, hne, hnk,
        hdot, hnv], rfl⟩

/-- Witness for `c1_field_validation` at a concrete input. -/
theorem c1_witness :
    buildWhereClause (.filter "zap" OpEq .vNull) ["name"] "" =
      ("", [], some (.invalidFilterKey "zap")) :=
  (c1_field_validation.2.1 "zap" OpEq .vNull ["name"] "" (Or.inl rfl) rfl (by simp)
    (by decide)).1

/-- C6: every validation failure aborts the whole build with empty text
and empty (nil) arguments — at the predicate-compiler level, the query
builder level, and the `Iter` level, where the error is returned and the
result does not depend on the engine at all (no query is issued). -/
theorem c6_validation_aborts_build :
    (∀ (p : Predicate) (vk : List String) (kfn : String) (t : String) (a : List Value)
        (e : QErr), buildWhereClause p vk kfn = (t, a, some e) → t = "" ∧ a = []) ∧
    (∀ (q : Query) (tn : String) (vk : List String) (kfn : String) (t : String)
        (a : List Value) (e : QErr),
      Query.build q tn vk kfn = (t, a, some e) → t = "" ∧ a = []) ∧
    (∀ (T : Type) (qOpt : Option Query) (tn : String) (vk : List String) (kfn : String)
        (e : QErr),
      (Query.build (qOpt.getD ⟨none, [], 0⟩) tn vk kfn).2.2 = some e →
      ∀ (engine : String → List Value → List Row) (decode : String → Except String T)
        (backfill : String → T → T) (cancelled : Nat → Bool) (rowsErr : Option String),
        IterM qOpt tn vk kfn engine decode backfill cancelled rowsErr = .error e) := by
  refine ⟨?_, ?_, ?_⟩
  · intro p vk kfn t a e h
    cases p with
    | filter k op v =>
      cases v with
      | vSlice values =>
        simp only [buildWhereClause] at h
        by_cases h₁ : op = OpIn ∨ op = OpNotIn
        · rw [if_pos h₁] at h
          by_cases h₂ : values.length = 0
          · simp only [if_pos h₂] at h
            split_ifs at h <;> simp_all
          · simp only [if_neg h₂] at h
            split_ifs at h <;> simp_all
        · rw [if_neg h₁] at h
          split_ifs at h <;> simp_all
      | vNilSlice =>
        simp only [buildWhereClause] at h
        split_ifs at h <;> simp_all
      | vNull =>
        simp only [buildWhereClause] at h
        split_ifs at h <;> simp_all
      | vStr s =>
        simp only [buildWhereClause] at h
        split_ifs at h <;> simp_all
      | vInt i =>
        simp only [buildWhereClause] at h
        split_ifs at h <;> simp_all
      | vBool b =>
        simp only [buildWhereClause] at h
        split_ifs at h <;> simp_all
    | and preds =>
      cases preds with
      | nil => simp [buildWhereClause] at h
      | cons p₀ rest =>
        simp only [buildWhereClause] at h
        rcases hc : collectClauses (p₀ :: rest) vk kfn with e₁ | ⟨cs, ags⟩ <;>
          rw [hc] at h <;> simp_all
    | or preds =>
      cases preds with
      | nil => simp [buildWhereClause] at h
      | cons p₀ rest =>
        simp only [buildWhereClause] at h
        rcases hc : collectClauses (p₀ :: rest) vk kfn with e₁ | ⟨cs, ags⟩ <;>
          rw [hc] at h <;> simp_all
  · intro q tn vk kfn t a e h
    rw [Query.build] at h
    rcases hp : Query.buildPrefix q tn vk kfn with ⟨t₂, a₂, e₂⟩
    rw [hp] at h
    cases e₂ with
    | some e₁ => simp_all
    | none => split_ifs at h <;> simp_all
  · intro T qOpt tn vk kfn e h engine decode backfill cancelled rowsErr
    rw [IterM]
    rcases hb : Query.build (qOpt.getD ⟨none, [], 0⟩) tn vk kfn with ⟨t, a, e₂⟩
    rw [hb] at h
    simp only at h
    subst h
    rfl

/-- Witness for `c6_validation_aborts_build` at a concrete input: an
invalid operator aborts `Iter` with the unsupported-operator error,
regardless of the engine. -/
theorem c6_witness :
    IterM (T := Nat) (some ⟨some (.filter "k" "INVALID" .vNull), [], 0⟩) "t" ["k"] ""
      (fun _ _ => [("a", "b")]) (fun _ => .ok 0) (fun _ t => t) (fun _ => false) none =
      .error (.unsupportedOperator "INVALID") :=
  c6_validation_aborts_build.2.2 Nat (some ⟨some (.filter "k" "INVALID" .vNull), [], 0⟩)
    "t" ["k"] "" (.unsupportedOperator "INVALID") rfl
    (fun _ _ => [("a", "b")]) (fun _ => .ok 0) (fun _ t => t) (fun _ => false) none

section ArgumentCounting

/-- If every child of a list satisfies the placeholder/argument count
law, a successful collection satisfies it clause-wise. -/
theorem count_collect (ps : List Predicate) (vk : List String) (kfn : String)
    (hall : ∀ p ∈ ps, ∀ t a, buildWhereClause p vk kfn = (t, a, none) → countQ t = a.length) :
    ∀ cs ags, collectClauses ps vk kfn = .ok (cs, ags) → (cs.map countQ).sum = ags.length := by
  induction ps with
  | nil =>
    intro cs ags h
    rw [collectClauses] at h
    simp at h
    simp [h.1, h.2]
  | cons p₀ rest ih =>
    intro cs ags h
    rw [collectClauses] at h
    rcases hb : buildWhereClause p₀ vk kfn with ⟨c₀, a₀, e₀⟩
    rw [hb] at h
    cases e₀ with
    | some e => simp at h
    | none =>
      simp only at h
      rcases hr : collectClauses rest vk kfn with e | ⟨cs₁, ags₁⟩
      · rw [hr] at h; simp at h
      · rw [hr] at h
        simp only [Except.ok.injEq, Prod.mk.injEq] at h
        obtain ⟨rfl, rfl⟩ := h
        have h₀ := hall p₀ (List.mem_cons_self _ _) c₀ a₀ hb
        have h₁ := ih (fun p hp => hall p (List.mem_cons_of_mem _ hp)) cs₁ ags₁ hr
        simp [h₀, h₁]

/-- The placeholder/argument count law for the predicate compiler, by
strong induction on the tree size: a successfully compiled clause has
exactly as many `?` placeholders as arguments. -/
theorem count_aux : ∀ (n : Nat) (p : Predicate), sizeOf p ≤ n →
    ∀ (vk : List String) (kfn : String) (t : String) (a : List Value),
      buildWhereClause p vk kfn = (t, a, none) → countQ t = a.length := by
  intro n
  induction n with
  | zero =>
    intro p hp
    exfalso
    cases p <;> simp_arith at hp
  | succ n ih =>
    intro p hp vk kfn t a hb
    cases p with
    | filter k op v =>
      cases v with
      | vSlice values =>
        simp only [buildWhereClause] at hb
        by_cases h₁ : op = OpIn ∨ op = OpNotIn
        · rw [if_pos h₁] at hb
          by_cases h₂ : values.length = 0
          · simp only [if_pos h₂] at hb
            rcases h₁ with rfl | rfl
            · simp only [if_pos rfl] at hb
              obtain ⟨rfl, rfl⟩ : "1 = 0" = t ∧ ([] : List Value) = a := by
                simpa using hb
              rfl
            · rw [if_neg (by decide : ¬ OpNotIn = OpIn)] at hb
              obtain ⟨rfl, rfl⟩ : "1 = 1" = t ∧ ([] : List Value) = a := by
                simpa using hb
              rfl
          · simp only [if_neg h₂] at hb
            split_ifs at hb with h₃ h₄
            · obtain ⟨rfl, rfl⟩ :
                  "key " ++ op ++ " (" ++ placeholdersFor values ++ ")" = t ∧ values = a := by
                simpa using hb
              have hop : countQ op = 0 := by rcases h₁ with rfl | rfl <;> rfl
              simp [countQ_append, countQ_placeholdersFor, hop, countQ_lit_key,
                countQ_lit_json, countQ_lit_lparen, countQ_lit_rparen, countQ_lit_qm]
              all_goals omega
            · simp at hb
            · obtain ⟨rfl, rfl⟩ :
                  "json_extract(json, ?) " ++ op ++ " (" ++ placeholdersFor values ++ ")" = t ∧
                    Value.vStr ("$." ++ k) :: values = a := by
                simpa using hb
              have hop : countQ op = 0 := by rcases h₁ with rfl | rfl <;> rfl
              simp [countQ_append, countQ_placeholdersFor, hop, countQ_lit_key,
                countQ_lit_json, countQ_lit_lparen, countQ_lit_rparen, countQ_lit_qm]
              all_goals omega
        · rw [if_neg h₁] at hb
          split_ifs at hb with h₆ h₃ h₄
          · obtain ⟨rfl, rfl⟩ : "key " ++ op ++ " ?" = t ∧ [Value.vSlice values] = a := by
              simpa using hb
            have hop : countQ op = 0 := by
              rcases h₆ with rfl | rfl | rfl | rfl | rfl | rfl <;> rfl
            simp [countQ_append, hop, countQ_lit_key, countQ_lit_json,
              countQ_lit_lparen, countQ_lit_rparen, countQ_lit_qm]
            all_goals omega
          · simp at hb
          · obtain ⟨rfl, rfl⟩ :
                "json_extract(json, ?) " ++ op ++ " ?" = t ∧
                  [Value.vStr ("$." ++ k), Value.vSlice values] = a := by
              simpa using hb
            have hop : countQ op = 0 := by
              rcases h₆ with rfl | rfl | rfl | rfl | rfl | rfl <;> rfl
            simp [countQ_append, hop, countQ_lit_key, countQ_lit_json,
              countQ_lit_lparen, countQ_lit_rparen, countQ_lit_qm]
            all_goals omega
          · simp at hb
      | vNilSlice =>
        simp only [buildWhereClause] at hb
        split_ifs at hb with h₁ h₆ h₃ h₄
        · simp at hb
        · obtain ⟨rfl, rfl⟩ : "key " ++ op ++ " ?" = t ∧ [Value.vNilSlice] = a := by
            simpa using hb
          have hop : countQ op = 0 := by
            rcases h₆ with rfl | rfl | rfl | rfl | rfl | rfl <;> rfl
          simp [countQ_append, hop, countQ_lit_key, countQ_lit_json,
            countQ_lit_lparen, countQ_lit_rparen, countQ_lit_qm]
          all_goals omega
        · simp at hb
        · obtain ⟨rfl, rfl⟩ :
              "json_extract(json, ?) " ++ op ++ " ?" = t ∧
                [Value.vStr ("$." ++ k), Value.vNilSlice] = a := by
            simpa using hb
          have hop : countQ op = 0 := by
            rcases h₆ with rfl | rfl | rfl | rfl | rfl | rfl <;> rfl
          simp [countQ_append, hop, countQ_lit_key, countQ_lit_json,
            countQ_lit_lparen, countQ_lit_rparen, countQ_lit_qm]
          all_goals omega
        · simp at hb
      | vNull =>
        simp only [buildWhereClause] at hb
        split_ifs at hb with h₁ h₆ h₃ h₄
        · simp at hb
        · obtain ⟨rfl, rfl⟩ : "key " ++ op ++ " ?" = t ∧ [Value.vNull] = a := by
            simpa using hb
          have hop : countQ op = 0 := by
            rcases h₆ with rfl | rfl | rfl | rfl | rfl | rfl <;> rfl
          simp [countQ_append, hop, countQ_lit_key, countQ_lit_json,
            countQ_lit_lparen, countQ_lit_rparen, countQ_lit_qm]
          all_goals omega
        · simp at hb
        · obtain ⟨rfl, rfl⟩ :
              "json_extract(json, ?) " ++ op ++ " ?" = t ∧
                [Value.vStr ("$." ++ k), Value.vNull] = a := by
            simpa using hb
          have hop : countQ op = 0 := by
            rcases h₆ with rfl | rfl | rfl | rfl | rfl | rfl <;> rfl
          simp [countQ_append, hop, countQ_lit_key, countQ_lit_json,
            countQ_lit_lparen, countQ_lit_rparen, countQ_lit_qm]
          all_goals omega
        · simp at hb
      | vStr sv =>
        simp only [buildWhereClause] at hb
        split_ifs at hb with h₁ h₆ h₃ h₄
        · simp at hb
        · obtain ⟨rfl, rfl⟩ : "key " ++ op ++ " ?" = t ∧ [Value.vStr sv] = a := by
            simpa using hb
          have hop : countQ op = 0 := by
            rcases h₆ with rfl | rfl | rfl | rfl | rfl | rfl <;> rfl
          simp [countQ_append, hop, countQ_lit_key, countQ_lit_json,
            countQ_lit_lparen, countQ_lit_rparen, countQ_lit_qm]
          all_goals omega
        · simp at hb
        · obtain ⟨rfl, rfl⟩ :
              "json_extract(json, ?) " ++ op ++ " ?" = t ∧
                [Value.vStr ("$." ++ k), Value.vStr sv] = a := by
            simpa using hb
          have hop : countQ op = 0 := by
            rcases h₆ with rfl | rfl | rfl | rfl | rfl | rfl <;> rfl
          simp [countQ_append, hop, countQ_lit_key, countQ_lit_json,
            countQ_lit_lparen, countQ_lit_rparen, countQ_lit_qm]
          all_goals omega
        · simp at hb
      | vInt iv =>
        simp only [buildWhereClause] at hb
        split_ifs at hb with h₁ h₆ h₃ h₄
        · simp at hb
        · obtain ⟨rfl, rfl⟩ : "key " ++ op ++ " ?" = t ∧ [Value.vInt iv] = a := by
            simpa using hb
          have hop : countQ op = 0 := by
            rcases h₆ with rfl | rfl | rfl | rfl | rfl | rfl <;> rfl
          simp [countQ_append, hop, countQ_lit_key, countQ_lit_json,
            countQ_lit_lparen, countQ_lit_rparen, countQ_lit_qm]
          all_goals omega
        · simp at hb
        · obtain ⟨rfl, rfl⟩ :
              "json_extract(json, ?) " ++ op ++ " ?" = t ∧
                [Value.vStr ("$." ++ k), Value.vInt iv] = a := by
            simpa using hb
          have hop : countQ op = 0 := by
            rcases h₆ with rfl | rfl | rfl | rfl | rfl | rfl <;> rfl
          simp [countQ_append, hop, countQ_lit_key, countQ_lit_json,
            countQ_lit_lparen, countQ_lit_rparen, countQ_lit_qm]
          all_goals omega
        · simp at hb
      | vBool bv =>
        simp only [buildWhereClause] at hb
        split_ifs at hb with h₁ h₆ h₃ h₄
        · simp at hb
        · obtain ⟨rfl, rfl⟩ : "key " ++ op ++ " ?" = t ∧ [Value.vBool bv] = a := by
            simpa using hb
          have hop : countQ op = 0 := by
            rcases h₆ with rfl | rfl | rfl | rfl | rfl | rfl <;> rfl
          simp [countQ_append, hop, countQ_lit_key, countQ_lit_json,
            countQ_lit_lparen, countQ_lit_rparen, countQ_lit_qm]
          all_goals omega
        · simp at hb
        · obtain ⟨rfl, rfl⟩ :
              "json_extract(json, ?) " ++ op ++ " ?" = t ∧
                [Value.vStr ("$." ++ k), Value.vBool bv] = a := by
            simpa using hb
          have hop : countQ op = 0 := by
            rcases h₆ with rfl | rfl | rfl | rfl | rfl | rfl <;> rfl
          simp [countQ_append, hop, countQ_lit_key, countQ_lit_json,
            countQ_lit_lparen, countQ_lit_rparen, countQ_lit_qm]
          all_goals omega
        · simp at hb
    | and ps =>
      cases ps with
      | nil =>
        obtain ⟨rfl, rfl⟩ : "" = t ∧ ([] : List Value) = a := by
          simpa [buildWhereClause] using hb
        rfl
      | cons p₀ rest =>
        simp only [buildWhereClause] at hb
        rcases hc : collectClauses (p₀ :: rest) vk kfn with e | ⟨cs, ags⟩
        · rw [hc] at hb; simp at hb
        · rw [hc] at hb
          obtain ⟨rfl, rfl⟩ : wrapJoin cs "AND" = t ∧ ags = a := by
            simpa using hb
          rw [countQ_wrapJoin _ _ (by rfl)]
          refine count_collect _ vk kfn ?_ cs ags hc
          intro p₁ hp₁ t₁ a₁ hb₁
          have hs₁ : sizeOf p₁ < sizeOf (p₀ :: rest) := List.sizeOf_lt_of_mem hp₁
          have hs₂ : sizeOf (Predicate.and (p₀ :: rest)) = 1 + sizeOf (p₀ :: rest) := by simp
          exact ih p₁ (by omega) vk kfn t₁ a₁ hb₁
    | or ps =>
      cases ps with
      | nil =>
        obtain ⟨rfl, rfl⟩ : "" = t ∧ ([] : List Value) = a := by
          simpa [buildWhereClause] using hb
        rfl
      | cons p₀ rest =>
        simp only [buildWhereClause] at hb
        rcases hc : collectClauses (p₀ :: rest) vk kfn with e | ⟨cs, ags⟩
        · rw [hc] at hb; simp at hb
        · rw [hc] at hb
          obtain ⟨rfl, rfl⟩ : wrapJoin cs "OR" = t ∧ ags = a := by
            simpa using hb
          rw [countQ_wrapJoin _ _ (by rfl)]
          refine count_collect _ vk kfn ?_ cs ags hc
          intro p₁ hp₁ t₁ a₁ hb₁
          have hs₁ : sizeOf p₁ < sizeOf (p₀ :: rest) := List.sizeOf_lt_of_mem hp₁
          have hs₂ : sizeOf (Predicate.or (p₀ :: rest)) = 1 + sizeOf (p₀ :: rest) := by simp
          exact ih p₁ (by omega) vk kfn t₁ a₁ hb₁

end ArgumentCounting

/-- A successful order-by compilation satisfies the count law and its
arguments are exactly the spec's order paths in entry order. -/
theorem orderClauses_ok : ∀ (obs : List OrderBy) (vk : List String) (kfn : String)
    (cs : List String) (ags : List Value),
    buildOrderClauses obs vk kfn = .ok (cs, ags) →
    (cs.map countQ).sum = ags.length ∧ ags = orderArgsSpec obs kfn := by
  intro obs
  induction obs with
  | nil =>
    intro vk kfn cs ags h
    rw [buildOrderClauses] at h
    simp only [Except.ok.injEq, Prod.mk.injEq] at h
    obtain ⟨rfl, rfl⟩ := h
    simp [orderArgsSpec]
  | cons o rest ih =>
    intro vk kfn cs ags h
    rw [buildOrderClauses] at h
    split_ifs at h with h₁ h₂ h₃ h₄
    · rcases hr : buildOrderClauses rest vk kfn with e | ⟨cs₁, ags₁⟩
      · rw [hr] at h; simp at h
      · rw [hr] at h
        simp only [Except.ok.injEq, Prod.mk.injEq] at h
        obtain ⟨h₅, h₆⟩ := h
        subst h₅
        subst h₆
        obtain ⟨hsum, hspec⟩ := ih vk kfn cs₁ ags₁ hr
        have hdir : o.direction = OrderAsc ∨ o.direction = OrderDesc := by
          rcases not_and_or.mp h₁ with h | h
          · exact Or.inl (not_not.mp h)
          · exact Or.inr (not_not.mp h)
        have hd : countQ ("key " ++ o.direction) = 0 := by
          rcases hdir with h | h <;> rw [h] <;> rfl
        constructor
        · simp [hd, hsum]
        · simpa [orderArgsSpec, List.filterMap_cons, h₂] using hspec
    · rcases hr : buildOrderClauses rest vk kfn with e | ⟨cs₁, ags₁⟩
      · rw [hr] at h; simp at h
      · rw [hr] at h
        simp only [Except.ok.injEq, Prod.mk.injEq] at h
        obtain ⟨h₅, h₆⟩ := h
        subst h₅
        subst h₆
        obtain ⟨hsum, hspec⟩ := ih vk kfn cs₁ ags₁ hr
        have hdir : o.direction = OrderAsc ∨ o.direction = OrderDesc := by
          rcases not_and_or.mp h₁ with h | h
          · exact Or.inl (not_not.mp h)
          · exact Or.inr (not_not.mp h)
        have hd : countQ ("json_extract(json, ?) " ++ o.direction) = 1 := by
          rcases hdir with h | h <;> rw [h] <;> rfl
        constructor
        · simp only [List.map_cons, List.sum_cons, hd, List.length_cons, hsum]
          omega
        · simpa [orderArgsSpec, List.filterMap_cons, h₂] using hspec

theorem countQ_lit_orderby : countQ " ORDER BY " = 0 := rfl

theorem countQ_lit_where : countQ " WHERE " = 0 := rfl

theorem countQ_lit_limit : countQ " LIMIT ?" = 1 := rfl

/-- The WHERE-clause arguments `Query.build` contributes: the compiled
predicate's arguments when a predicate is present and compiles to
non-empty text, else none. -/
def whereArgsOf (q : Query) (vk : List String) (kfn : String) : List Value :=
  match q.predicate with
  | none => []
  | some p =>
    match buildWhereClause p vk kfn with
    | (wc, wargs, none) => if wc = "" then [] else wargs
    | (_, _, some _) => []

/-- The LIMIT argument `Query.build` contributes: the limit value, last,
iff the limit is positive. -/
def limitArgsOf (q : Query) : List Value :=
  if q.limit > 0 then [Value.vInt q.limit] else []

/-- Count law and argument layout for the SELECT/WHERE/ORDER BY prefix. -/
theorem buildPrefix_spec (q : Query) (tn : String) (vk : List String) (kfn : String)
    (t : String) (a : List Value) (htn : countQ tn = 0)
    (h : Query.buildPrefix q tn vk kfn = (t, a, none)) :
    countQ t = a.length ∧ a = whereArgsOf q vk kfn ++ orderArgsSpec q.orderBy kfn := by
  have hbase : countQ ("SELECT key, json FROM " ++ tn) = 0 := by
    rw [countQ_append, htn]
    rfl
  rw [Query.buildPrefix] at h
  rcases hq : q.predicate with _ | p <;> rw [hq] at h <;> simp only at h
  · by_cases hord : q.orderBy.isEmpty
    · rw [if_pos hord] at h
      obtain ⟨rfl, rfl⟩ : "SELECT key, json FROM " ++ tn = t ∧ ([] : List Value) = a := by
        simpa using h
      rw [List.isEmpty_iff] at hord
      simp [hbase, whereArgsOf, hq, orderArgsSpec, hord]
    · rw [if_neg hord] at h
      rcases ho : buildOrderClauses q.orderBy vk kfn with e | ⟨cs, oargs⟩
      · rw [ho] at h; simp at h
      · rw [ho] at h
        obtain ⟨rfl, rfl⟩ :
            "SELECT key, json FROM " ++ tn ++ " ORDER BY " ++ joinSep ", " cs = t ∧
              [] ++ oargs = a := by
          simpa using h
        obtain ⟨hsum, hspec⟩ := orderClauses_ok q.orderBy vk kfn cs oargs ho
        have hjs : countQ (joinSep ", " cs) = (cs.map countQ).sum :=
          countQ_joinSep ", " rfl cs
        constructor
        · simp [countQ_append, hbase, hjs, hsum, countQ_lit_orderby]
        · simp [whereArgsOf, hq, hspec]
  · rcases hw : buildWhereClause p vk kfn with ⟨wc, wargs, ew⟩
    rw [hw] at h
    cases ew with
    | some e => simp at h
    | none =>
      simp only at h
      have hwc : countQ wc = wargs.length :=
        count_aux (sizeOf p) p le_rfl vk kfn wc wargs hw
      by_cases hempty : wc = ""
      · rw [if_pos hempty] at h
        simp only at h
        by_cases hord : q.orderBy.isEmpty
        · rw [if_pos hord] at h
          obtain ⟨rfl, rfl⟩ : "SELECT key, json FROM " ++ tn = t ∧ ([] : List Value) = a := by
            simpa using h
          rw [List.isEmpty_iff] at hord
          simp [hbase, whereArgsOf, hq, hw, hempty, orderArgsSpec, hord]
        · rw [if_neg hord] at h
          rcases ho : buildOrderClauses q.orderBy vk kfn with e | ⟨cs, oargs⟩
          · rw [ho] at h; simp at h
          · rw [ho] at h
            obtain ⟨rfl, rfl⟩ :
                "SELECT key, json FROM " ++ tn ++ " ORDER BY " ++ joinSep ", " cs = t ∧
                  [] ++ oargs = a := by
              simpa using h
            obtain ⟨hsum, hspec⟩ := orderClauses_ok q.orderBy vk kfn cs oargs ho
            have hjs : countQ (joinSep ", " cs) = (cs.map countQ).sum :=
              countQ_joinSep ", " rfl cs
            constructor
            · simp [countQ_append, hbase, hjs, hsum, countQ_lit_orderby]
            · simp [whereArgsOf, hq, hw, hempty, hspec]
      · rw [if_neg hempty] at h
        simp only at h
        by_cases hord : q.orderBy.isEmpty
        · rw [if_pos hord] at h
          obtain ⟨rfl, rfl⟩ :
              "SELECT key, json FROM " ++ tn ++ " WHERE " ++ wc = t ∧ wargs = a := by
            simpa using h
          rw [List.isEmpty_iff] at hord
          constructor
          · simp [countQ_append, hbase, hwc, countQ_lit_where]
          · simp [whereArgsOf, hq, hw, hempty, orderArgsSpec, hord]
        · rw [if_neg hord] at h
          rcases ho : buildOrderClauses q.orderBy vk kfn with e | ⟨cs, oargs⟩
          · rw [ho] at h; simp at h
          · rw [ho] at h
            obtain ⟨rfl, rfl⟩ :
                "SELECT key, json FROM " ++ tn ++ " WHERE " ++ wc ++ " ORDER BY " ++
                    joinSep ", " cs = t ∧ wargs ++ oargs = a := by
              simpa using h
            obtain ⟨hsum, hspec⟩ := orderClauses_ok q.orderBy vk kfn cs oargs ho
            have hjs : countQ (joinSep ", " cs) = (cs.map countQ).sum :=
              countQ_joinSep ", " rfl cs
            constructor
            · simp [countQ_append, hbase, hwc, hjs, hsum, countQ_lit_orderby,
                countQ_lit_where]
            · simp [whereArgsOf, hq, hw, hempty, hspec]

/-- C4: for every successfully built query (over a table name free of
`?`, as table names validated by the store always are), the number of
arguments equals the number of `?` placeholders in the text, and the
argument list is exactly the predicate's depth-first compiled arguments,
then the order-by field paths in entry order, then the limit value last
(present iff the limit is positive). -/
theorem c4_args_match_placeholders (q : Query) (tn : String) (vk : List String)
    (kfn : String) (t : String) (a : List Value) (htn : countQ tn = 0)
    (h : Query.build q tn vk kfn = (t, a, none)) :
    countQ t = a.length ∧
    a = whereArgsOf q vk kfn ++ orderArgsSpec q.orderBy kfn ++ limitArgsOf q := by
  rw [Query.build] at h
  rcases hp : Query.buildPrefix q tn vk kfn with ⟨t₂, a₂, e₂⟩
  rw [hp] at h
  cases e₂ with
  | some e => simp at h
  | none =>
    simp only at h
    obtain ⟨hcount, hargs⟩ := buildPrefix_spec q tn vk kfn t₂ a₂ htn hp
    by_cases hlim : q.limit > 0
    · rw [if_pos hlim] at h
      obtain ⟨rfl, rfl⟩ : t₂ ++ " LIMIT ?" = t ∧ a₂ ++ [Value.vInt q.limit] = a := by
        simpa using h
      constructor
      · simp [countQ_append, hcount, countQ_lit_limit]
      · rw [hargs, limitArgsOf, if_pos hlim]
    · rw [if_neg hlim] at h
      obtain ⟨rfl, rfl⟩ : t₂ = t ∧ a₂ = a := by simpa using h
      constructor
      · exact hcount
      · rw [hargs, limitArgsOf, if_neg hlim]
        simp

/-- Witness for `c4_args_match_placeholders` at a concrete input. -/
theorem c4_witness :
    countQ
        "SELECT key, json FROM t WHERE json_extract(json, ?) = ? ORDER BY json_extract(json, ?) ASC LIMIT ?" =
      ([Value.vStr "$.name", Value.vStr "x", Value.vStr "$.age", Value.vInt 5] :
        List Value).length ∧
    ([Value.vStr "$.name", Value.vStr "x", Value.vStr "$.age", Value.vInt 5] :
        List Value) =
      whereArgsOf ⟨some (.filter "name" OpEq (.vStr "x")), [⟨"age", "ASC"⟩], 5⟩
          ["name", "age"] "" ++
        orderArgsSpec (Query.orderBy ⟨some (.filter "name" OpEq (.vStr "x")),
          [⟨"age", "ASC"⟩], 5⟩) "" ++
        limitArgsOf ⟨some (.filter "name" OpEq (.vStr "x")), [⟨"age", "ASC"⟩], 5⟩ :=
  c4_args_match_placeholders ⟨some (.filter "name" OpEq (.vStr "x")), [⟨"age", "ASC"⟩], 5⟩
    "t" ["name", "age"] "" _ _ rfl rfl

section Cancellation

/-- The event trace is the yielded outputs followed by exactly one
cursor close, on every exit path. -/
theorem iterTrace_eq_outputs {T : Type} (decode : String → Except String T)
    (backfill : String → T → T) (cancelled : Nat → Bool) (rowsErr : Option String) :
    ∀ (rows : List Row) (n : Nat),
      iterTrace decode backfill cancelled rowsErr rows n =
        (iterOutputs decode backfill cancelled rowsErr rows n).map IterEvent.yielded ++
          [IterEvent.closed] := by
  intro rows
  induction rows with
  | nil =>
    intro n
    cases rowsErr <;> simp [iterTrace, iterOutputs]
  | cons r rest ih =>
    intro n
    by_cases hc : cancelled n
    · simp [iterTrace, iterOutputs, hc]
    · rcases hd : decode r.2 with m | t <;> simp [iterTrace, iterOutputs, hc, hd, ih]

/-- Cancellation auxiliary, generalized over the start step: if the
cancellation flag is set at step `n + k`, the stream started at step `n`
has at most `k + 1` elements, and every element at index `≥ k` is an
error — the cancellation error itself whenever the cursor reports no
terminal error. -/
theorem iter_cancel_aux {T : Type} (decode : String → Except String T)
    (backfill : String → T → T) (cancelled : Nat → Bool) (rowsErr : Option String) :
    ∀ (rows : List Row) (n k : Nat), cancelled (n + k) = true →
      (iterOutputs decode backfill cancelled rowsErr rows n).length ≤ k + 1 ∧
      ∀ i x, k ≤ i →
        (iterOutputs decode backfill cancelled rowsErr rows n).get? i = some x →
        (∃ e, x = Except.error e) ∧
          (rowsErr = none → x = Except.error StreamErr.cancelled) := by
  intro rows
  induction rows with
  | nil =>
    intro n k hk
    constructor
    · cases rowsErr <;> simp [iterOutputs] <;> omega
    · intro i x hi hget
      cases rowsErr with
      | none => simp [iterOutputs] at hget
      | some m =>
        simp only [iterOutputs] at hget
        rcases i with _ | j
        · simp at hget
          exact ⟨⟨.rowIterationFailed m, hget.symm⟩, fun hnone => by simp at hnone⟩
        · simp at hget
  | cons r rest ih =>
    intro n k hk
    by_cases hc : cancelled n
    · have hout : iterOutputs decode backfill cancelled rowsErr (r :: rest) n =
          [Except.error StreamErr.cancelled] := by
        simp [iterOutputs, iterTrace, hc]
      rw [hout]
      constructor
      · simp
      · intro i x hi hget
        rcases i with _ | j
        · simp at hget
          exact ⟨⟨.cancelled, hget.symm⟩, fun _ => hget.symm⟩
        · simp at hget
    · have hk0 : k ≠ 0 := by
        rintro rfl
        rw [Nat.add_zero] at hk
        exact hc hk
      obtain ⟨k₁, rfl⟩ : ∃ k₁, k = k₁ + 1 := ⟨k - 1, by omega⟩
      rcases hd : decode r.2 with m | t
      · have hout : iterOutputs decode backfill cancelled rowsErr (r :: rest) n =
            [Except.error (StreamErr.decodeFailed m)] := by
          simp [iterOutputs, iterTrace, hc, hd]
        rw [hout]
        constructor
        · simp
        · intro i x hi hget
          rcases i with _ | j
          · omega
          · simp at hget
      · have hout : iterOutputs decode backfill cancelled rowsErr (r :: rest) n =
            Except.ok (backfill r.1 t) ::
              iterOutputs decode backfill cancelled rowsErr rest (n + 1) := by
          simp only [iterOutputs, iterTrace, hc, if_false, Bool.false_eq_true, hd,
            List.filterMap_cons]
        have hrec := ih (n + 1) k₁ (by
          have : n + 1 + k₁ = n + (k₁ + 1) := by omega
          rw [this]
          exact hk)
        rw [hout]
        constructor
        · simp only [List.length_cons]
          omega
        · intro i x hi hget
          rcases i with _ | j
          · omega
          · simp only [List.get?] at hget
            exact hrec.2 j x (by omega) hget

end Cancellation

/-- C9: once the cancellation flag is observed at loop step `N` (after
`N` items were yielded), the stream has at most one further element,
every element from index `N` on is an error — the terminal cancellation
error whenever the cursor itself reports none — so item `N + 2` is never
produced and no further entity is ever yielded; and the trace shows the
cursor is closed exactly once, after the final yield, on that exit path. -/
theorem c9_cancellation_terminal {T : Type} (decode : String → Except String T)
    (backfill : String → T → T) (cancelled : Nat → Bool) (rowsErr : Option String)
    (rows : List Row) (N : Nat) (hN : cancelled N = true) :
    (iterOutputs decode backfill cancelled rowsErr rows 0).length ≤ N + 1 ∧
    (∀ i x, N ≤ i →
      (iterOutputs decode backfill cancelled rowsErr rows 0).get? i = some x →
      ∃ e, x = Except.error e) ∧
    (rowsErr = none → ∀ i x, N ≤ i →
      (iterOutputs decode backfill cancelled rowsErr rows 0).get? i = some x →
      x = Except.error StreamErr.cancelled) ∧
    iterTrace decode backfill cancelled rowsErr rows 0 =
      (iterOutputs decode backfill cancelled rowsErr rows 0).map IterEvent.yielded ++
        [IterEvent.closed] := by
  have h := iter_cancel_aux decode backfill cancelled rowsErr rows 0 N
    (by simpa using hN)
  exact ⟨h.1, fun i x hi hg => (h.2 i x hi hg).1,
    fun hnone i x hi hg => (h.2 i x hi hg).2 hnone,
    iterTrace_eq_outputs decode backfill cancelled rowsErr rows 0⟩

/-- Witness for `c9_cancellation_terminal` at a concrete input:
cancellation arrives at step 1, after one yielded item, over three
pending rows. -/
theorem c9_witness :
    (iterOutputs (fun s => Except.ok s) (fun _ t => t) (fun n => decide (1 ≤ n)) none
        [("k1", "a"), ("k2", "b"), ("k3", "c")] 0).length ≤ 1 + 1 ∧
    (∀ i x, 1 ≤ i →
      (iterOutputs (fun s => Except.ok s) (fun _ t => t) (fun n => decide (1 ≤ n)) none
        [("k1", "a"), ("k2", "b"), ("k3", "c")] 0).get? i = some x →
      ∃ e, x = Except.error e) ∧
    ((none : Option String) = none → ∀ i x, 1 ≤ i →
      (iterOutputs (fun s => Except.ok s) (fun _ t => t) (fun n => decide (1 ≤ n)) none
        [("k1", "a"), ("k2", "b"), ("k3", "c")] 0).get? i = some x →
      x = Except.error StreamErr.cancelled) ∧
    iterTrace (fun s => Except.ok s) (fun _ t => t) (fun n => decide (1 ≤ n)) none
        [("k1", "a"), ("k2", "b"), ("k3", "c")] 0 =
      (iterOutputs (fun s => Except.ok s) (fun _ t => t) (fun n => decide (1 ≤ n)) none
        [("k1", "a"), ("k2", "b"), ("k3", "c")] 0).map IterEvent.yielded ++
        [IterEvent.closed] :=
  c9_cancellation_terminal (fun s => Except.ok s) (fun _ t => t)
    (fun n => decide (1 ≤ n)) none [("k1", "a"), ("k2", "b"), ("k3", "c")] 1 rfl

section GetOneResolver

/-- `GetOne`'s loop never consumes more than 2 stream items. -/
theorem getOneLoop_consumed_le_two {T : Type} (seq : List (Except StreamErr T)) (zero : T) :
    (getOneLoop seq zero 0).2.2.2 ≤ 2 := by
  rcases seq with _ | ⟨x, rest⟩
  · simp [getOneLoop]
  · rcases x with e | t
    · simp [getOneLoop]
    · rcases rest with _ | ⟨y, r₂⟩
      · simp [getOneLoop]
      · rcases y with e | t₂ <;> simp [getOneLoop]

/-- With a positive limit, the modelled engine truncates to the limit. -/
theorem runQuery_limit_two (matching : List Row) (p : Predicate) :
    runQuery matching ⟨some p, [], 2⟩ = matching.take 2 := by
  simp [runQuery]

/-- C3: `GetOne` builds a query with the given predicate and a limit of
2; over zero matching rows it returns the not-found error (wrapping
`sql.ErrNoRows` in the source), over exactly one matching decodable row
it returns that entity, over two or more matching decodable rows it
returns the multiple-results error regardless of how many more rows
match; any per-item stream error is propagated as an iteration-failure
wrapping the cause, winning over any already-seen entity — whether it is
a decode failure at the first or at the second item, a terminal
`rows.Err()` from the cursor, or a context cancellation observed before
or after the first item; and in all cases at most 2 stream items are
consumed and at most 2 rows are fetched from the engine. -/
theorem c3_get_one_semantics (T : Type) (p : Predicate) (tn : String) (vk : List String)
    (kfn : String) (zero : T) (decode : String → Except String T)
    (backfill : String → T → T) (bt : String) (ba : List Value)
    (hb : Query.build ⟨some p, [], 2⟩ tn vk kfn = (bt, ba, none)) :
    (GetOneM p tn vk kfn zero [] decode backfill (fun _ => false) none).1 =
      .error .notFound ∧
    (∀ r t, decode r.2 = .ok t →
      (GetOneM p tn vk kfn zero [r] decode backfill (fun _ => false) none).1 =
        .ok (backfill r.1 t)) ∧
    (∀ r₁ r₂ rest t₁ t₂, decode r₁.2 = .ok t₁ → decode r₂.2 = .ok t₂ →
      (GetOneM p tn vk kfn zero (r₁ :: r₂ :: rest) decode backfill
        (fun _ => false) none).1 = .error .multipleResults) ∧
    (∀ r rest m, decode r.2 = .error m →
      (GetOneM p tn vk kfn zero (r :: rest) decode backfill (fun _ => false) none).1 =
        .error (.iterationFailed (.decodeFailed m))) ∧
    (∀ r₁ r₂ rest t₁ m, decode r₁.2 = .ok t₁ → decode r₂.2 = .error m →
      (GetOneM p tn vk kfn zero (r₁ :: r₂ :: rest) decode backfill
        (fun _ => false) none).1 = .error (.iterationFailed (.decodeFailed m))) ∧
    (∀ m, (GetOneM p tn vk kfn zero [] decode backfill (fun _ => false) (some m)).1 =
      .error (.iterationFailed (.rowIterationFailed m))) ∧
    (∀ r t m, decode r.2 = .ok t →
      (GetOneM p tn vk kfn zero [r] decode backfill (fun _ => false) (some m)).1 =
        .error (.iterationFailed (.rowIterationFailed m))) ∧
    (∀ r rest,
      (GetOneM p tn vk kfn zero (r :: rest) decode backfill (fun _ => true) none).1 =
        .error (.iterationFailed .cancelled)) ∧
    (∀ r₁ r₂ rest t₁, decode r₁.2 = .ok t₁ →
      (GetOneM p tn vk kfn zero (r₁ :: r₂ :: rest) decode backfill
        (fun n => decide (1 ≤ n)) none).1 = .error (.iterationFailed .cancelled)) ∧
    (∀ matching cancelled rowsErr,
      (GetOneM p tn vk kfn zero matching decode backfill cancelled rowsErr).2 ≤ 2 ∧
      (runQuery matching ⟨some p, [], 2⟩).length ≤ 2) := by
  refine ⟨?_, ?_, ?_, ?_, ?_, ?_, ?_, ?_, ?_, ?_⟩
  · rw [GetOneM, hb]
    simp [runQuery_limit_two, iterOutputs, getOneLoop]
  · intro r t ht
    rw [GetOneM, hb]
    simp [runQuery_limit_two, iterOutputs, getOneLoop, ht]
  · intro r₁ r₂ rest t₁ t₂ ht₁ ht₂
    rw [GetOneM, hb]
    simp [runQuery_limit_two, iterOutputs, getOneLoop, ht₁, ht₂, List.take_cons]
  · intro r rest m hm
    rw [GetOneM, hb]
    simp [runQuery_limit_two, iterOutputs, getOneLoop, hm, List.take_cons]
  · intro r₁ r₂ rest t₁ m ht₁ hm
    rw [GetOneM, hb]
    simp [runQuery_limit_two, iterOutputs, getOneLoop, ht₁, hm, List.take_cons]
  · intro m
    rw [GetOneM, hb]
    simp [runQuery_limit_two, iterOutputs, getOneLoop]
  · intro r t m ht
    rw [GetOneM, hb]
    simp [runQuery_limit_two, iterOutputs, getOneLoop, ht]
  · intro r rest
    rw [GetOneM, hb]
    simp [runQuery_limit_two, iterOutputs, getOneLoop, List.take_cons]
  · intro r₁ r₂ rest t₁ ht₁
    rw [GetOneM, hb]
    simp [runQuery_limit_two, iterOutputs, getOneLoop, ht₁, List.take_cons]
  · intro matching cancelled rowsErr
    constructor
    · rw [GetOneM, hb]
      simp only []
      rcases hl : getOneLoop (iterOutputs decode backfill cancelled rowsErr
          (runQuery matching ⟨some p, [], 2⟩) 0) zero 0 with ⟨res, ie, cnt, consumed⟩
      have hcons := getOneLoop_consumed_le_two
        (iterOutputs decode backfill cancelled rowsErr
          (runQuery matching ⟨some p, [], 2⟩) 0) zero
      rw [hl] at hcons
      cases ie with
      | some e => simpa [hl] using hcons
      | none =>
        by_cases h0 : cnt = 0
        · simp [hl, h0]
          exact hcons
        · by_cases h1 : cnt > 1
          · simp [hl, h0, h1]
            exact hcons
          · simp [hl, h0, h1]
            exact hcons
    · rw [runQuery_limit_two]
      simp [List.length_take]

end GetOneResolver

/-- Witness for `c3_get_one_semantics` at a concrete input. -/
theorem c3_witness :
    (GetOneM (.filter "name" OpEq (.vStr "x")) "t" ["name"] "" ""
        [] (fun s => Except.ok s) (fun _ t => t) (fun _ => false) none).1 =
      .error .notFound :=
  (c3_get_one_semantics String (.filter "name" OpEq (.vStr "x")) "t" ["name"] "" ""
    (fun s => Except.ok s) (fun _ t => t)
    "SELECT key, json FROM t WHERE json_extract(json, ?) = ? LIMIT ?"
    [Value.vStr "$.name", Value.vStr "x", Value.vInt 2] rfl).1

end Litestore
